import Mathlib

/-!
HospitalQueueGUI: persistence module (`Database.cpp`) and queue window (`main.cpp`)

A shallow embedding of the two translation units of the repository.

* `Database.cpp` keeps one process-wide connection `g_db` and talks to the table
  `patient_records` through its SQL statements.  The connection and the table are an
  explicit `Store` value here; each `db_*` function takes the store and, when it writes,
  returns the new store next to its C++ return value.  Every SQL statement is modelled by
  what SQLite computes for it: `WHERE` is a filter, `ORDER BY` a sort of the scanned rows,
  `LIMIT` a `take`, `LIKE` the wildcard matcher, `AUTOINCREMENT` the rowid allocator.
* `main.cpp` keeps the vector `patientQueue`, its own connection `db` to the table
  `patients`, and the form fields of the window.  The three buttons are functions on the
  `Gui` state.

Conventions on machine values.

* A table holds what SQLite can hold: 64-bit integers and text of any content.  The
  source reads every integer column with `sqlite3_column_int`, which keeps the low 32
  bits, and casts the new rowid with `(int)sqlite3_last_insert_rowid(g_db)`; that
  narrowing is `toInt32`.  `db_mark_served` takes an `int` and binds it with
  `sqlite3_bind_int`, so the statement sees the `int` value of its argument.
* Text is bound with `sqlite3_bind_text(stmt, i, s.c_str(), -1, ...)`, which stores the
  characters before the first NUL, and every text column is read into a `std::string`
  from a `const char*`, which again stops at the first NUL; both are `c_str`.  Text is
  compared the way SQLite's default BINARY collation does (code point by code point, a
  proper prefix first).
* The form fields `age` and `severity` of the window are `int` variables: what the user
  enters is held as its `int` value.

A statement fails only for the reasons named in the definitions (closed handle, missing
table, no rowid left).  Failures that come from the environment (a locked or full disk,
memory, SQLite's length limits) are outside the model.
-/

namespace HospitalQueue

/-! ## Machine-level helpers -/

/-- The value of a 64-bit integer after conversion to a 32-bit `int`
(two's complement, the low 32 bits). -/
def toInt32 (x : Int) : Int := (x + 2147483648) % 4294967296 - 2147483648

/-- The integer `x` is a value of the C type `int`. -/
def fitsInt (x : Int) : Bool := decide (-2147483648 ≤ x ∧ x ≤ 2147483647)

/-- The text `s` holds no NUL character. -/
def noNul (s : String) : Bool := s.data.all (fun c => c ≠ '\x00')

/-- The largest rowid SQLite can assign, `2^63 - 1`. -/
def MAX_ROWID : Int := 9223372036854775807

/-- The text a C API reads from `s.c_str()` when it is told to stop at the terminator:
the characters before the first NUL. -/
def c_str (s : String) : String := String.mk (s.data.takeWhile (fun c => c ≠ '\x00'))

/-- BINARY collation, strict: `textLt a b` when `a` sorts before `b`. -/
def textLt : List Char → List Char → Bool
  | _, [] => false
  | [], _ :: _ => true
  | a :: as, b :: bs =>
    decide (a.toNat < b.toNat) || (decide (a.toNat = b.toNat) && textLt as bs)

/-- SQL `lower(X)`: only the ASCII letters `A`..`Z` are folded. -/
def sqlLower (s : String) : String := String.mk (s.data.map Char.toLower)

/-- SQL `X LIKE P` on character lists (first argument the pattern `P`, second the text
`X`), without an ESCAPE clause: `%` matches any run of characters, also the empty one,
`_` matches exactly one character, any other character matches itself up to ASCII case. -/
def likeMatch : List Char → List Char → Bool
  | [], t => t.isEmpty
  | '%' :: p, t => t.tails.any (fun u => likeMatch p u)
  | '_' :: p, t =>
    match t with
    | [] => false
    | _ :: u => likeMatch p u
  | c :: p, t =>
    match t with
    | [] => false
    | d :: u => (c.toLower == d.toLower) && likeMatch p u

/-- The output of `ORDER BY`: the scanned rows sorted by the comparison `le` of the sort
key.  Rows with equal keys come out in an order SQL leaves open; this sorter keeps them in
scan order. -/
def orderBy {α : Type} (le : α → α → Bool) (l : List α) : List α :=
  l.insertionSort (fun a b => le a b = true)

/-! ## `Database.hpp` / `Database.cpp` -/

/-- The struct `DBPatient` of `Database.hpp`. -/
structure DBPatient where
  id : Int
  name : String
  age : Int
  severity : Int
  checkup : String
  visit_time : String
  status : String
deriving DecidableEq, Repr

/-- A row of the table `patient_records` as created by `db_init`.  `checkup` is the one
column the readers expect to be possibly NULL. -/
structure Row where
  id : Int
  name : String
  age : Int
  severity : Int
  checkup : Option String
  visit_time : String
  status : String
deriving DecidableEq, Repr

/-- The row is one a `DBPatient` can hold as it is: `id`, `age` and `severity` are values
of `int` and no text holds a NUL. -/
def Row.fits (r : Row) : Bool :=
  fitsInt r.id && fitsInt r.age && fitsInt r.severity && noNul r.name &&
    noNul (r.checkup.getD "") && noNul r.visit_time && noNul r.status

/-- The table `patient_records`: its rows in scan order, and the counter SQLite keeps in
`sqlite_sequence` for an `AUTOINCREMENT` key (the largest rowid handed out so far). -/
structure Table where
  rows : List Row
  seq : Int
deriving DecidableEq, Repr

/-- The state behind the global `g_db`. -/
inductive Store where
  /-- The handle `g_db` is `nullptr`: `db_init` was not called or could not open the file. -/
  | closed
  /-- The handle `g_db` is open but `patient_records` could not be created, so preparing
  any statement on it fails. -/
  | noTable
  /-- The handle `g_db` is open and `patient_records` exists. -/
  | table (t : Table)
deriving DecidableEq, Repr

/-- The records held by the store. -/
def Store.records : Store → List Row
  | .table t => t.rows
  | _ => []

/-- What `db_init` finds at the path it is given. -/
inductive DbFile where
  /-- The path for which `sqlite3_open` fails. -/
  | unopenable
  /-- The file that opens but on which `CREATE TABLE` fails. -/
  | unusable
  /-- The file that is new, or has no table `patient_records` yet. -/
  | fresh
  /-- The file that already holds the table. -/
  | existing (t : Table)

/-- `db_init`: open the file and run `CREATE TABLE IF NOT EXISTS patient_records`.
When the table cannot be created the function returns false and leaves the handle open. -/
def db_init : DbFile → Bool × Store
  | .unopenable => (false, .closed)
  | .unusable => (false, .noTable)
  | .fresh => (true, .table { rows := [], seq := 0 })
  | .existing t => (true, .table t)

/-- The largest rowid in the table, `none` when it is empty. -/
def lastRowid : List Int → Option Int
  | [] => none
  | i :: is =>
    match lastRowid is with
    | none => some i
    | some m => some (max i m)

/-- The rowid SQLite picks for an `INSERT` into a table whose key is `INTEGER PRIMARY KEY
AUTOINCREMENT`, from the rowids in the table and the `sqlite_sequence` counter: one more
than the largest rowid in the table (1 when it is empty), raised to one more than the
counter.  When either is already `MAX_ROWID` the statement fails with `SQLITE_FULL`
(`none`). -/
def newRowid (ids : List Int) (seq : Int) : Option Int :=
  match lastRowid ids with
  | none => if seq = MAX_ROWID then none else some (max 1 (seq + 1))
  | some m =>
    if m ≥ MAX_ROWID ∨ seq = MAX_ROWID then none else some (max (m + 1) (seq + 1))

/-- The body of the three `while (sqlite3_step(stmt) == SQLITE_ROW)` loops: one result
row copied column by column into a `DBPatient`.  The integer columns go through
`sqlite3_column_int`, the text columns through a `const char*`; a NULL `checkup` is read
as the empty text. -/
def fetchRow (r : Row) : DBPatient :=
  { id := toInt32 r.id
    name := c_str r.name
    age := toInt32 r.age
    severity := toInt32 r.severity
    checkup := c_str (r.checkup.getD "")
    visit_time := c_str r.visit_time
    status := c_str r.status }

/-- `db_add_patient`.  `now` is the text `datetime('now','localtime')` evaluates to when
the statement runs (the column default of `visit_time`). -/
def db_add_patient (s : Store) (name : String) (age severity : Int) (checkup : String)
    (now : String) : Int × Store :=
  match s with
  | .closed => (-1, s)
  | .noTable => (-1, s)
  | .table t =>
    match newRowid (t.rows.map Row.id) t.seq with
    | none => (-1, s)
    | some rowid =>
      let r : Row :=
        { id := rowid
          name := c_str name
          age := age
          severity := severity
          checkup := some (c_str checkup)
          visit_time := now
          status := "waiting" }
      (toInt32 rowid, .table { rows := t.rows ++ [r], seq := rowid })

/-- `WHERE status='waiting'`. -/
def isWaiting (r : Row) : Bool := decide (r.status = "waiting")

/-- `ORDER BY severity DESC, id ASC`: `a` may come before `b`. -/
def waitingOrder (a b : Row) : Bool :=
  decide (a.severity > b.severity) || (decide (a.severity = b.severity) && decide (a.id ≤ b.id))

/-- `ORDER BY visit_time DESC`: `a` may come before `b`. -/
def historyOrder (a b : Row) : Bool :=
  !(textLt a.visit_time.data b.visit_time.data)

/-- `db_load_waiting`. -/
def db_load_waiting (s : Store) : List DBPatient :=
  match s with
  | .closed => []
  | .noTable => []
  | .table t => ((orderBy waitingOrder (t.rows.filter isWaiting))).map fetchRow

/-- `UPDATE patient_records SET status='served' WHERE id = ?` applied to one row, with
`bound` the value bound to the parameter. -/
def markRow (bound : Int) (r : Row) : Row :=
  if r.id = bound then { r with status := "served" } else r

/-- `db_mark_served`.  The parameter is an `int` bound with `sqlite3_bind_int`, so the
statement compares the rowids with `toInt32 patient_id`.  The statement steps to
`SQLITE_DONE` whether or not a row matched, and the function returns
`rc == SQLITE_DONE`. -/
def db_mark_served (s : Store) (patient_id : Int) : Bool × Store :=
  match s with
  | .closed => (false, s)
  | .noTable => (false, s)
  | .table t => (true, .table { t with rows := t.rows.map (markRow (toInt32 patient_id)) })

/-- `db_load_history`. -/
def db_load_history (s : Store) (limit : Int) : List DBPatient :=
  match s with
  | .closed => []
  | .noTable => []
  | .table t =>
    let sorted := orderBy historyOrder t.rows
    (if limit > 0 then sorted.take limit.toNat else sorted).map fetchRow

/-- `WHERE lower(name) LIKE lower(?)` with the bound pattern. -/
def nameLike (pattern : String) (r : Row) : Bool :=
  likeMatch (sqlLower pattern).data (sqlLower r.name).data

/-- `db_search_by_name`. -/
def db_search_by_name (s : Store) (query : String) : List DBPatient :=
  match s with
  | .closed => []
  | .noTable => []
  | .table t =>
    let pattern := c_str ("%" ++ query ++ "%")
    (orderBy historyOrder (t.rows.filter (nameLike pattern))).map fetchRow

/-! ## `main.cpp` -/

/-- The struct `Patient` of `main.cpp`. -/
structure Patient where
  name : String
  age : Int
  severity : Int
  checkup : String
deriving DecidableEq, Repr

/-- A row of the table `patients` created by `initDB`. -/
structure PatientsRow where
  id : Int
  name : String
  age : Int
  severity : Int
  checkup : String
deriving DecidableEq, Repr

/-- The table `patients` behind the global handle `db`: its rows in scan order and its
`sqlite_sequence` counter.  `main` returns before the window opens when `initDB` fails,
so every state of the window has this table. -/
structure PatientsTable where
  rows : List PatientsRow
  seq : Int
deriving DecidableEq, Repr

/-- The state of the window: the global `patientQueue`, the table behind the global `db`,
and the four form fields declared in `main`. -/
structure Gui where
  patientQueue : List Patient
  db : PatientsTable
  nameBuffer : String
  age : Int
  severity : Int
  checkupBuffer : String
deriving DecidableEq, Repr

/-- The columns `name, age, severity, checkup` of a result row as a `Patient`, read as
in the loop of `loadPatientsFromDB`: the integers with `sqlite3_column_int`, the texts
through a `const char*`. -/
def PatientsRow.toPatient (r : PatientsRow) : Patient :=
  { name := c_str r.name
    age := toInt32 r.age
    severity := toInt32 r.severity
    checkup := c_str r.checkup }

/-- The comparator handed to `std::sort` in `sortQueue`. -/
def severityGreater (a b : Patient) : Bool := decide (a.severity > b.severity)

/-- `std::sort(first, last, comp)`: the elements rearranged so that no element is
followed by one that `comp` puts strictly before it.  The standard leaves the order of
equivalent elements open; this sorter keeps them in their input order. -/
def stdSort {α : Type} (comp : α → α → Bool) (l : List α) : List α :=
  orderBy (fun a b => !(comp b a)) l

/-- `sortQueue`. -/
def sortQueue (g : Gui) : Gui :=
  { g with patientQueue := stdSort severityGreater g.patientQueue }

/-- `ORDER BY severity DESC` on `patients`: `a` may come before `b`. -/
def severityDesc (a b : PatientsRow) : Bool := decide (a.severity ≥ b.severity)

/-- `loadPatientsFromDB`: every row of `patients`, in the order of the `SELECT`, is
pushed to the back of `patientQueue`. -/
def loadPatientsFromDB (g : Gui) : Gui :=
  { g with
    patientQueue :=
      g.patientQueue ++ (orderBy severityDesc g.db.rows).map PatientsRow.toPatient }

/-- `insertPatientToDB`.  The result of `sqlite3_step` is not looked at: when the insert
fails the table is as before. -/
def insertPatientToDB (g : Gui) (p : Patient) : Gui :=
  match newRowid (g.db.rows.map PatientsRow.id) g.db.seq with
  | none => g
  | some rowid =>
    let r : PatientsRow :=
      { id := rowid
        name := c_str p.name
        age := p.age
        severity := p.severity
        checkup := c_str p.checkup }
    { g with db := { rows := g.db.rows ++ [r], seq := rowid } }

/-- The start of `main` once `initDB` has succeeded on the table `file`: the globals and
form fields at their initial values, then `loadPatientsFromDB`. -/
def startup (file : PatientsTable) : Gui :=
  loadPatientsFromDB
    { patientQueue := []
      db := file
      nameBuffer := ""
      age := 0
      severity := 1
      checkupBuffer := "" }

/-- The handler of the button "Add Patient".  The two `char[64]` buffers are read as C
strings: `strlen(nameBuffer)` is the length of `c_str nameBuffer`. -/
def addPatientClicked (g : Gui) : Gui :=
  if (c_str g.nameBuffer).length > 0 then
    let p : Patient :=
      { name := c_str g.nameBuffer
        age := g.age
        severity := g.severity
        checkup := c_str g.checkupBuffer }
    let g1 := { g with patientQueue := g.patientQueue ++ [p] }
    let g2 := insertPatientToDB g1 p
    let g3 := sortQueue g2
    { g3 with nameBuffer := "", age := 0, severity := 1, checkupBuffer := "" }
  else g

/-- The test in the table loop of `main` that decides whether the row of patient `p` is
drawn while the search field holds `searchBuffer`: both texts go through `::tolower`
(ASCII letters folded) and the row is skipped when the query is not empty and
`nameLow.find(query)` is `npos`. -/
def queueRowShown (searchBuffer : String) (p : Patient) : Bool :=
  let query := (c_str searchBuffer).data.map Char.toLower
  let nameLow := p.name.data.map Char.toLower
  !(!query.isEmpty && !decide (query <:+: nameLow))

/-- The handler of the button "Clear Queue". -/
def clearQueueClicked (g : Gui) : Gui :=
  { g with patientQueue := [] }

/-- The handler of the button "Call Next Patient"; the button is only offered while the
queue is not empty. -/
def callNextClicked (g : Gui) : Gui :=
  if g.patientQueue.isEmpty then g else { g with patientQueue := g.patientQueue.tail }

/-- What the user does in one frame of the window: fill the form and press "Add Patient",
press "Clear Queue", or press "Call Next Patient". -/
inductive Action where
  | addPatient (nameBuffer : String) (age severity : Int) (checkupBuffer : String)
  | clearQueue
  | callNext
deriving DecidableEq, Repr

/-- One user action applied to the window state.  The form fields `age` and `severity`
are `int` variables, so they hold the `int` value of what was entered. -/
def Gui.step (g : Gui) : Action → Gui
  | .addPatient n a s c =>
    addPatientClicked
      { g with nameBuffer := n, age := toInt32 a, severity := toInt32 s, checkupBuffer := c }
  | .clearQueue => clearQueueClicked g
  | .callNext => callNextClicked g

/-- The window state after a sequence of user actions. -/
def Gui.run (g : Gui) (acts : List Action) : Gui := acts.foldl Gui.step g

/-! ## Operation sequences on the store -/

/-- The two writers of `Database.cpp` as operations; `now` is the clock text at the
insert. -/
inductive Op where
  | add (name : String) (age severity : Int) (checkup : String) (now : String)
  | serve (patient_id : Int)
deriving DecidableEq, Repr

/-- One writer call applied to the store. -/
def Store.step (s : Store) : Op → Store
  | .add name age severity checkup now => (db_add_patient s name age severity checkup now).2
  | .serve patient_id => (db_mark_served s patient_id).2

/-- The store after a sequence of writer calls. -/
def Store.run (s : Store) (ops : List Op) : Store := ops.foldl Store.step s

/-! ## Invariant of the window -/

/-- Every queued patient has a row in the table, unless the table has run out of rowids
(an insert that fails is not noticed by the window). -/
def Gui.Backed (g : Gui) : Prop :=
  newRowid (g.db.rows.map PatientsRow.id) g.db.seq = none ∨
  ∀ p ∈ g.patientQueue, ∃ r ∈ g.db.rows, r.toPatient = p

/-! ## Sample states -/

/-- A waiting patient of severity 3. -/
def sampleAnna : Row :=
  { id := 1, name := "Anna", age := 30, severity := 3, checkup := some "flu",
    visit_time := "2024-01-01 10:00:00", status := "waiting" }

/-- A waiting patient of severity 5, without a checkup. -/
def sampleJuan : Row :=
  { id := 2, name := "Juan", age := 40, severity := 5, checkup := none,
    visit_time := "2024-01-01 10:05:00", status := "waiting" }

/-- A served patient of severity 5. -/
def sampleBob : Row :=
  { id := 3, name := "Bob", age := 50, severity := 5, checkup := some "x-ray",
    visit_time := "2024-01-01 10:05:00", status := "served" }

/-- A second waiting patient of severity 3, arrived after `sampleAnna`. -/
def sampleCarl : Row :=
  { id := 2, name := "Carl", age := 52, severity := 3, checkup := some "cough",
    visit_time := "2024-01-01 10:07:00", status := "waiting" }

/-- Two inserts of equal severity, in this order. -/
def sampleOps : List Op :=
  [ .add "Anna" 30 3 "flu" "2024-01-01 10:00:00",
    .add "Carl" 52 3 "cough" "2024-01-01 10:07:00" ]

/-- The store after `sampleOps` on the table `db_init` creates in a new file. -/
def sampleReached : Store := (db_init .fresh).2.run sampleOps

/-- A store with three waiting records that do not all fit a `DBPatient`: the first two
are what two inserts of severity 3 leave in a table whose counter stood at 2147483646,
the third holds a severity and an age beyond `int` and a name with a NUL. -/
def wideStore : Store :=
  .table
    { rows :=
        [ { id := 2147483647, name := "Anna", age := 30, severity := 3,
            checkup := some "flu", visit_time := "2024-01-01 10:00:00",
            status := "waiting" },
          { id := 2147483648, name := "Carl", age := 52, severity := 3,
            checkup := some "cough", visit_time := "2024-01-01 10:07:00",
            status := "waiting" },
          { id := 7, name := "Bo\x00b", age := 4294967337, severity := 4294967297,
            checkup := some "x-ray", visit_time := "2024-01-01 10:09:00",
            status := "waiting" } ]
      seq := 2147483648 }

/-- The store after one insert into an empty table whose counter stood at 2147483647:
its one record has the rowid 2147483648. -/
def beyondIntStore : Store :=
  (Store.table { rows := [], seq := 2147483647 }).run
    [.add "Bo" 41 2 "x-ray" "2024-01-01 10:05:00"]

/-- A `patients` table in which one severity is beyond `int`. -/
def widePatients : PatientsTable :=
  { rows :=
      [ { id := 1, name := "Anna", age := 30, severity := 4294967297, checkup := "flu" },
        { id := 2, name := "Juan", age := 40, severity := 5, checkup := "x-ray" } ]
    seq := 2 }

/-- A `patients` table whose last rowid is the largest one: it cannot take another row. -/
def fullPatients : PatientsTable :=
  { rows :=
      [ { id := 9223372036854775807, name := "Anna", age := 30, severity := 3,
          checkup := "flu" } ]
    seq := 9223372036854775807 }

/-- A store with two waiting patients and one served patient. -/
def sampleStore : Store :=
  .table { rows := [sampleAnna, sampleJuan, sampleBob], seq := 3 }

/-- A `patients` table with two rows. -/
def samplePatients : PatientsTable :=
  { rows :=
      [ { id := 1, name := "Anna", age := 30, severity := 3, checkup := "flu" },
        { id := 2, name := "Juan", age := 40, severity := 5, checkup := "x-ray" } ]
    seq := 2 }

/-- A window state: the queue as loaded from `samplePatients`. -/
def sampleGui : Gui := startup samplePatients

/-! ## Lemmas: collation and sorting -/

theorem textLt_iff_lex (a b : List Char) :
    textLt a b = true ↔ List.Lex (fun x y : Char => x < y) a b := by
  induction a generalizing b with
  | nil =>
    cases b with
    | nil => simp [textLt]
    | cons y bs => simp [textLt, List.Lex.nil]
  | cons x as ih =>
    cases b with
    | nil => simp [textLt]
    | cons y bs =>
      have hxy : x.toNat < y.toNat ↔ x < y := Iff.rfl
      have hinj : x.toNat = y.toNat ↔ x = y := by
        constructor
        · intro h
          exact Char.ext (UInt32.ext h)
        · intro h
          rw [h]
      simp only [textLt, Bool.or_eq_true, Bool.and_eq_true, decide_eq_true_eq, ih, hxy, hinj]
      constructor
      · rintro (h | ⟨rfl, h⟩)
        · exact List.Lex.rel h
        · exact List.Lex.cons h
      · intro h
        cases h with
        | cons h => exact Or.inr ⟨rfl, h⟩
        | rel h => exact Or.inl h

theorem textLt_iff_lt (a b : String) : textLt a.data b.data = true ↔ a < b := by
  rw [textLt_iff_lex, String.lt_iff_toList_lt]
  exact Iff.rfl

theorem orderBy_perm {α : Type} (le : α → α → Bool) (l : List α) : (orderBy le l).Perm l :=
  List.perm_insertionSort _ l

theorem orderBy_sorted {α : Type} (le : α → α → Bool)
    (htotal : ∀ a b, le a b = true ∨ le b a = true)
    (htrans : ∀ a b c, le a b = true → le b c = true → le a c = true) (l : List α) :
    (orderBy le l).Sorted (fun a b => le a b = true) := by
  haveI : IsTotal α (fun a b => le a b = true) := ⟨htotal⟩
  haveI : IsTrans α (fun a b => le a b = true) := ⟨htrans⟩
  exact List.sorted_insertionSort _ l

theorem waitingOrder_iff (a b : Row) :
    waitingOrder a b = true ↔
      b.severity < a.severity ∨ (a.severity = b.severity ∧ a.id ≤ b.id) := by
  simp [waitingOrder]

theorem historyOrder_iff (a b : Row) :
    historyOrder a b = true ↔ b.visit_time ≤ a.visit_time := by
  have h := textLt_iff_lt a.visit_time b.visit_time
  unfold historyOrder
  cases hlt : textLt a.visit_time.data b.visit_time.data with
  | true => simpa using h.mp hlt
  | false =>
    have : ¬ a.visit_time < b.visit_time := fun hc => by
      rw [h.mpr hc] at hlt
      exact Bool.noConfusion hlt
    simpa using this

theorem waiting_sorted (l : List Row) :
    (orderBy waitingOrder l).Sorted
      (fun a b => b.severity < a.severity ∨ (a.severity = b.severity ∧ a.id ≤ b.id)) := by
  have h := orderBy_sorted waitingOrder
    (fun a b => by simp only [waitingOrder_iff]; omega)
    (fun a b c => by simp only [waitingOrder_iff]; omega) l
  exact h.imp (fun {a b} hab => (waitingOrder_iff a b).mp hab)

theorem history_sorted (l : List Row) :
    (orderBy historyOrder l).Sorted (fun a b => b.visit_time ≤ a.visit_time) := by
  have h := orderBy_sorted historyOrder
    (fun a b => by simp only [historyOrder_iff]; exact le_total _ _)
    (fun a b c => by simp only [historyOrder_iff]; exact fun h1 h2 => le_trans h2 h1) l
  exact h.imp (fun {a b} hab => (historyOrder_iff a b).mp hab)

/-! ## Lemmas: C strings, case folding and `LIKE` -/

theorem c_str_idem (s : String) : c_str (c_str s) = c_str s := by
  simp [c_str, List.takeWhile_takeWhile]

theorem c_str_of_no_nul (s : String) (h : ∀ c ∈ s.data, c ≠ '\x00') : c_str s = s := by
  unfold c_str
  have : s.data.takeWhile (fun c => decide (c ≠ '\x00')) = s.data :=
    List.takeWhile_eq_self_iff.mpr (fun c hc => by simpa using h c hc)
  rw [this]

theorem c_str_of_noNul (s : String) (h : noNul s = true) : c_str s = s := by
  apply c_str_of_no_nul
  intro c hc
  simp only [noNul, List.all_eq_true, decide_eq_true_eq] at h
  exact h c hc

theorem toNat_ofNat_small (m : Nat) (h : m < 55296) : (Char.ofNat m).toNat = m := by
  have hv : m.isValidChar := Or.inl h
  unfold Char.ofNat
  rw [dif_pos hv]
  simp [Char.ofNatAux, Char.toNat, UInt32.toNat]

theorem toLower_toNat (c : Char) :
    c.toLower.toNat = if 65 ≤ c.toNat ∧ c.toNat ≤ 90 then c.toNat + 32 else c.toNat := by
  unfold Char.toLower
  simp only [ge_iff_le]
  split
  · rename_i h
    exact toNat_ofNat_small _ (by omega)
  · rfl

theorem char_eq_of_toNat (c d : Char) (h : c.toNat = d.toNat) : c = d :=
  Char.ext (UInt32.ext h)

theorem toLower_idem (c : Char) : c.toLower.toLower = c.toLower := by
  apply char_eq_of_toNat
  rw [toLower_toNat c.toLower, toLower_toNat c]
  by_cases h : 65 ≤ c.toNat ∧ c.toNat ≤ 90
  · rw [if_pos h, if_neg (by omega)]
  · rw [if_neg h, if_neg h]

theorem toLower_ne_percent (c : Char) (h : c ≠ '%') : c.toLower ≠ '%' := by
  intro hc
  have h1 := congrArg Char.toNat hc
  rw [toLower_toNat] at h1
  have h2 : ('%' : Char).toNat = 37 := by decide
  rw [h2] at h1
  apply h
  apply char_eq_of_toNat
  rw [h2]
  split at h1 <;> omega

theorem toLower_ne_underscore (c : Char) (h : c ≠ '_') : c.toLower ≠ '_' := by
  intro hc
  have h1 := congrArg Char.toNat hc
  rw [toLower_toNat] at h1
  have h2 : ('_' : Char).toNat = 95 := by decide
  rw [h2] at h1
  apply h
  apply char_eq_of_toNat
  rw [h2]
  split at h1 <;> omega

theorem likeMatch_percent (p t : List Char) :
    likeMatch ('%' :: p) t = t.tails.any (fun u => likeMatch p u) := by
  rw [likeMatch]

theorem likeMatch_lit_nil (c : Char) (p : List Char) (h1 : c ≠ '%') (h2 : c ≠ '_') :
    likeMatch (c :: p) [] = false := by
  rw [likeMatch]
  · exact fun h => h1 h
  · exact fun h => h2 h

theorem likeMatch_lit_cons (c d : Char) (p u : List Char) (h1 : c ≠ '%') (h2 : c ≠ '_') :
    likeMatch (c :: p) (d :: u) = ((c.toLower == d.toLower) && likeMatch p u) := by
  rw [likeMatch]
  · exact fun h => h1 h
  · exact fun h => h2 h


theorem likeMatch_plain_start (q t : List Char)
    (hplain : ∀ c ∈ q, c ≠ '%' ∧ c ≠ '_') (hq : ∀ c ∈ q, c.toLower = c)
    (ht : ∀ d ∈ t, d.toLower = d) :
    likeMatch (q ++ ['%']) t = true ↔ q <+: t := by
  induction q generalizing t with
  | nil =>
    simp only [List.nil_append, likeMatch_percent, List.any_eq_true, List.mem_tails,
      List.nil_prefix, iff_true]
    exact ⟨[], List.nil_suffix, rfl⟩
  | cons c q ih =>
    have hc := hplain c (List.mem_cons_self c q)
    cases t with
    | nil =>
      rw [List.cons_append, likeMatch_lit_nil c _ hc.1 hc.2]
      simp
    | cons d u =>
      rw [List.cons_append, likeMatch_lit_cons c d _ u hc.1 hc.2,
        hq c (List.mem_cons_self c q), ht d (List.mem_cons_self d u), List.cons_prefix_cons,
        Bool.and_eq_true, beq_iff_eq,
        ih u (fun x hx => hplain x (List.mem_cons_of_mem c hx))
          (fun x hx => hq x (List.mem_cons_of_mem c hx))
          (fun x hx => ht x (List.mem_cons_of_mem d hx))]

theorem likeMatch_plain_within (q t : List Char)
    (hplain : ∀ c ∈ q, c ≠ '%' ∧ c ≠ '_') (hq : ∀ c ∈ q, c.toLower = c)
    (ht : ∀ d ∈ t, d.toLower = d) :
    likeMatch ('%' :: (q ++ ['%'])) t = true ↔ q <:+: t := by
  rw [likeMatch_percent, List.any_eq_true, List.infix_iff_prefix_suffix]
  constructor
  · rintro ⟨u, hu, hm⟩
    have hsuf := (List.mem_tails _ _).mp hu
    exact ⟨u, (likeMatch_plain_start q u hplain hq (fun d hd => ht d (hsuf.subset hd))).mp hm,
      hsuf⟩
  · rintro ⟨u, hpre, hsuf⟩
    exact ⟨u, (List.mem_tails _ _).mpr hsuf,
      (likeMatch_plain_start q u hplain hq (fun d hd => ht d (hsuf.subset hd))).mpr hpre⟩

theorem nameLike_plain (query : String)
    (hq : ∀ c ∈ query.data, c ≠ '%' ∧ c ≠ '_' ∧ c ≠ '\x00') (r : Row) :
    nameLike (c_str ("%" ++ query ++ "%")) r =
      decide ((sqlLower query).data <:+: (sqlLower r.name).data) := by
  have hnul : ∀ c ∈ ("%" ++ query ++ "%").data, c ≠ '\x00' := by
    intro c hc
    simp only [String.data_append, List.mem_append] at hc
    rcases hc with (hc | hc) | hc
    · have : c = '%' := by simpa using hc
      rw [this]; decide
    · exact (hq c hc).2.2
    · have : c = '%' := by simpa using hc
      rw [this]; decide
  rw [c_str_of_no_nul _ hnul]
  have hpat : (sqlLower ("%" ++ query ++ "%")).data =
      '%' :: ((sqlLower query).data ++ ['%']) := by
    simp only [sqlLower, String.data_append, List.map_append]
    rfl
  unfold nameLike
  rw [hpat]
  have hplain : ∀ c ∈ (sqlLower query).data, c ≠ '%' ∧ c ≠ '_' := by
    intro c hc
    simp only [sqlLower, List.mem_map] at hc
    obtain ⟨d, hd, rfl⟩ := hc
    exact ⟨toLower_ne_percent d (hq d hd).1, toLower_ne_underscore d (hq d hd).2.1⟩
  have hlow : ∀ (s : String), ∀ c ∈ (sqlLower s).data, c.toLower = c := by
    intro s c hc
    simp only [sqlLower, List.mem_map] at hc
    obtain ⟨d, _, rfl⟩ := hc
    exact toLower_idem d
  have := likeMatch_plain_within (sqlLower query).data (sqlLower r.name).data hplain
    (hlow query) (hlow r.name)
  rw [Bool.eq_iff_iff, this, decide_eq_true_iff]

/-! ## Lemmas: rowids -/

theorem toInt32_of_fits (x : Int) (hlo : -2147483648 ≤ x) (hhi : x ≤ 2147483647) :
    toInt32 x = x := by
  unfold toInt32
  omega

theorem toInt32_of_fitsInt (x : Int) (h : fitsInt x = true) : toInt32 x = x := by
  simp only [fitsInt, decide_eq_true_eq] at h
  exact toInt32_of_fits x h.1 h.2

theorem toInt32_idem (x : Int) : toInt32 (toInt32 x) = toInt32 x := by
  unfold toInt32
  omega

theorem fitsInt_toInt32 (x : Int) : fitsInt (toInt32 x) = true := by
  simp only [fitsInt, decide_eq_true_eq]
  unfold toInt32
  omega

theorem lastRowid_none {ids : List Int} (h : lastRowid ids = none) : ids = [] := by
  cases ids with
  | nil => rfl
  | cons i is =>
    simp only [lastRowid] at h
    split at h <;> simp at h

theorem le_of_lastRowid {ids : List Int} {m : Int} (h : lastRowid ids = some m) :
    ∀ i ∈ ids, i ≤ m := by
  induction ids generalizing m with
  | nil => simp
  | cons j js ih =>
    simp only [lastRowid] at h
    split at h
    · rename_i hnone
      have hjs := lastRowid_none hnone
      subst hjs
      simp only [Option.some.injEq] at h
      simp [h]
    · rename_i m1 hsome
      simp only [Option.some.injEq] at h
      intro i hi
      rcases List.mem_cons.mp hi with rfl | hi
      · omega
      · have := ih hsome i hi
        omega

theorem lt_of_newRowid {ids : List Int} {seq n : Int} (h : newRowid ids seq = some n) :
    ∀ i ∈ ids, i < n := by
  unfold newRowid at h
  split at h
  · rename_i hnone
    simp [lastRowid_none hnone]
  · rename_i m hsome
    split at h
    · simp at h
    · simp only [Option.some.injEq] at h
      intro i hi
      have := le_of_lastRowid hsome i hi
      omega

/-! ## Lemmas: readers and writers of the store -/

theorem mem_db_load_waiting (t : Table) (p : DBPatient) :
    p ∈ db_load_waiting (.table t) ↔ ∃ r ∈ t.rows, r.status = "waiting" ∧ fetchRow r = p := by
  simp only [db_load_waiting, List.mem_map, (orderBy_perm waitingOrder _).mem_iff,
    List.mem_filter, isWaiting, decide_eq_true_eq]
  constructor
  · rintro ⟨r, ⟨hr, hw⟩, rfl⟩
    exact ⟨r, hr, hw, rfl⟩
  · rintro ⟨r, hr, hw, rfl⟩
    exact ⟨r, ⟨hr, hw⟩, rfl⟩

theorem db_load_history_zero (t : Table) :
    db_load_history (.table t) 0 = (orderBy historyOrder t.rows).map fetchRow := by
  simp [db_load_history]

theorem mem_db_load_history_zero (t : Table) (p : DBPatient) :
    p ∈ db_load_history (.table t) 0 ↔ ∃ r ∈ t.rows, fetchRow r = p := by
  simp only [db_load_history_zero, List.mem_map, (orderBy_perm historyOrder _).mem_iff]

theorem fetchRow_of_fits (r : Row) (h : r.fits = true) :
    (fetchRow r).id = r.id ∧ (fetchRow r).name = r.name ∧ (fetchRow r).age = r.age ∧
    (fetchRow r).severity = r.severity ∧ (fetchRow r).checkup = r.checkup.getD "" ∧
    (fetchRow r).visit_time = r.visit_time ∧ (fetchRow r).status = r.status := by
  simp only [Row.fits, Bool.and_eq_true] at h
  obtain ⟨⟨⟨⟨⟨⟨h1, h2⟩, h3⟩, h4⟩, h5⟩, h6⟩, h7⟩ := h
  simp only [fetchRow]
  exact ⟨toInt32_of_fitsInt _ h1, c_str_of_noNul _ h4, toInt32_of_fitsInt _ h2,
    toInt32_of_fitsInt _ h3, c_str_of_noNul _ h5, c_str_of_noNul _ h6, c_str_of_noNul _ h7⟩

theorem forall₂_map_fetchRow (l : List Row) (R : DBPatient → Row → Prop)
    (h : ∀ r ∈ l, R (fetchRow r) r) : List.Forall₂ R (l.map fetchRow) l := by
  rw [List.forall₂_map_left_iff, List.forall₂_same]
  exact h

theorem waiting_fetched_sorted (l : List Row) (hfit : ∀ r ∈ l, r.fits = true) :
    ((orderBy waitingOrder l).map fetchRow).Sorted
      (fun p q => q.severity < p.severity ∨ (p.severity = q.severity ∧ p.id ≤ q.id)) := by
  unfold List.Sorted
  rw [List.pairwise_map]
  refine List.Pairwise.imp_of_mem ?_ (waiting_sorted l)
  intro a b ha hb hab
  have hfa := fetchRow_of_fits a (hfit a ((orderBy_perm waitingOrder l).mem_iff.mp ha))
  have hfb := fetchRow_of_fits b (hfit b ((orderBy_perm waitingOrder l).mem_iff.mp hb))
  rw [hfa.1, hfb.1, hfa.2.2.2.1, hfb.2.2.2.1]
  exact hab

theorem pair_sublist_db_load_waiting (t : Table) (a b : Row) (hab : List.Sublist [a, b] t.rows)
    (ha : a.status = "waiting") (hb : b.status = "waiting")
    (hkey : waitingOrder a b = true) :
    List.Sublist [fetchRow a, fetchRow b] (db_load_waiting (.table t)) := by
  haveI : IsTotal Row (fun a b => waitingOrder a b = true) :=
    ⟨fun a b => by simp only [waitingOrder_iff]; omega⟩
  haveI : IsTrans Row (fun a b => waitingOrder a b = true) :=
    ⟨fun a b c => by simp only [waitingOrder_iff]; omega⟩
  have hfilter : List.Sublist [a, b] (t.rows.filter isWaiting) := by
    have := hab.filter isWaiting
    simpa [isWaiting, ha, hb] using this
  have hsorted : List.Sublist [a, b] (orderBy waitingOrder (t.rows.filter isWaiting)) :=
    List.sublist_insertionSort (List.pairwise_pair.mpr hkey) hfilter
  exact hsorted.map fetchRow

/-- What `db_search_by_name` does compute for a query without `%`, `_` and NUL: the
records whose lower-cased name contains the lower-cased query (ASCII letters folded),
each once, ordered by visit time descending. -/
theorem db_search_by_name_plain_query (s : Store) (query : String)
    (hq : ∀ c ∈ query.data, c ≠ '%' ∧ c ≠ '_' ∧ c ≠ '\x00') :
    ∃ l : List Row,
      l.Perm (s.records.filter
        (fun r => decide ((sqlLower query).data <:+: (sqlLower r.name).data))) ∧
      l.Sorted (fun a b => b.visit_time ≤ a.visit_time) ∧
      db_search_by_name s query = l.map fetchRow := by
  cases s with
  | closed => exact ⟨[], by simp [Store.records], List.sorted_nil, rfl⟩
  | noTable => exact ⟨[], by simp [Store.records], List.sorted_nil, rfl⟩
  | table t =>
    have hfilter : t.rows.filter (nameLike (c_str ("%" ++ query ++ "%"))) =
        t.rows.filter
          (fun r => decide ((sqlLower query).data <:+: (sqlLower r.name).data)) :=
      List.filter_congr (fun r _ => nameLike_plain query hq r)
    refine ⟨orderBy historyOrder (t.rows.filter (nameLike (c_str ("%" ++ query ++ "%")))),
      ?_, history_sorted _, rfl⟩
    rw [Store.records, ← hfilter]
    exact orderBy_perm _ _

theorem markRow_id (patient_id : Int) (r : Row) : (markRow patient_id r).id = r.id := by
  unfold markRow
  split <;> rfl

theorem markRow_of_ne (patient_id : Int) (r : Row) (h : r.id ≠ patient_id) :
    markRow patient_id r = r := by
  simp [markRow, h]

theorem markRow_of_eq (patient_id : Int) (r : Row) (h : r.id = patient_id) :
    markRow patient_id r = { r with status := "served" } := by
  simp [markRow, h]

theorem markRow_status_of_id (patient_id : Int) (r : Row) (h : (markRow patient_id r).id = patient_id) :
    (markRow patient_id r).status = "served" := by
  rw [markRow_id] at h
  rw [markRow_of_eq _ _ h]

theorem map_id_markRow (patient_id : Int) (rows : List Row) :
    (rows.map (markRow patient_id)).map Row.id = rows.map Row.id := by
  rw [List.map_map]
  exact List.map_congr_left (fun r _ => markRow_id patient_id r)

theorem step_nodup (s : Store) (op : Op) (h : (s.records.map Row.id).Nodup) :
    ((s.step op).records.map Row.id).Nodup := by
  cases s with
  | closed => cases op <;> simpa [Store.step, db_add_patient, db_mark_served] using h
  | noTable => cases op <;> simpa [Store.step, db_add_patient, db_mark_served] using h
  | table t =>
    simp only [Store.records] at h
    cases op with
    | add name age severity checkup now =>
      cases hnew : newRowid (t.rows.map Row.id) t.seq with
      | none => simpa [Store.step, db_add_patient, hnew, Store.records] using h
      | some rowid =>
        have hlt := lt_of_newRowid hnew
        have hfresh : rowid ∉ t.rows.map Row.id := fun hmem => lt_irrefl _ (hlt rowid hmem)
        simp only [Store.step, db_add_patient, hnew, Store.records, List.map_append,
          List.map_cons, List.map_nil]
        exact List.Nodup.append h (List.nodup_singleton _)
          (List.disjoint_singleton.mpr hfresh)
    | serve patient_id =>
      simp only [Store.step, db_mark_served, Store.records]
      rw [map_id_markRow]
      exact h

theorem run_nodup (ops : List Op) (s : Store) (h : (s.records.map Row.id).Nodup) :
    ((s.run ops).records.map Row.id).Nodup := by
  induction ops generalizing s with
  | nil => exact h
  | cons op ops ih => exact ih (s.step op) (step_nodup s op h)

theorem step_ids_increasing (s : Store) (op : Op)
    (h : (s.records.map Row.id).Sorted (fun i j => i < j)) :
    ((s.step op).records.map Row.id).Sorted (fun i j => i < j) := by
  cases s with
  | closed => cases op <;> simpa [Store.step, db_add_patient, db_mark_served] using h
  | noTable => cases op <;> simpa [Store.step, db_add_patient, db_mark_served] using h
  | table t =>
    simp only [Store.records] at h
    cases op with
    | add name age severity checkup now =>
      cases hnew : newRowid (t.rows.map Row.id) t.seq with
      | none => simpa [Store.step, db_add_patient, hnew, Store.records] using h
      | some rowid =>
        have hlt := lt_of_newRowid hnew
        simp only [Store.step, db_add_patient, hnew, Store.records, List.map_append,
          List.map_cons, List.map_nil]
        unfold List.Sorted
        rw [List.pairwise_append]
        refine ⟨h, List.pairwise_singleton _ _, ?_⟩
        intro i hi j hj
        rw [List.mem_singleton.mp hj]
        exact hlt i hi
    | serve patient_id =>
      simp only [Store.step, db_mark_served, Store.records]
      rw [map_id_markRow]
      exact h

theorem run_ids_increasing (ops : List Op) (s : Store)
    (h : (s.records.map Row.id).Sorted (fun i j => i < j)) :
    ((s.run ops).records.map Row.id).Sorted (fun i j => i < j) := by
  induction ops generalizing s with
  | nil => exact h
  | cons op ops ih => exact ih (s.step op) (step_ids_increasing s op h)

theorem step_keeps (s : Store) (op : Op) (r : Row) (hr : r ∈ s.records) :
    ∃ r2 ∈ (s.step op).records, r2 = r ∨ r2 = { r with status := "served" } := by
  cases s with
  | closed => simp [Store.records] at hr
  | noTable => simp [Store.records] at hr
  | table t =>
    simp only [Store.records] at hr
    cases op with
    | add name age severity checkup now =>
      cases hnew : newRowid (t.rows.map Row.id) t.seq with
      | none =>
        exact ⟨r, by simpa [Store.step, db_add_patient, hnew, Store.records] using hr, Or.inl rfl⟩
      | some rowid =>
        refine ⟨r, ?_, Or.inl rfl⟩
        simp only [Store.step, db_add_patient, hnew, Store.records, List.mem_append]
        exact Or.inl hr
    | serve patient_id =>
      refine ⟨markRow (toInt32 patient_id) r, ?_, ?_⟩
      · simp only [Store.step, db_mark_served, Store.records, List.mem_map]
        exact ⟨r, hr, rfl⟩
      · by_cases hid : r.id = toInt32 patient_id
        · exact Or.inr (markRow_of_eq _ _ hid)
        · exact Or.inl (markRow_of_ne _ _ hid)

/-! ## Lemmas: the window -/

theorem stdSort_severity_sorted (q : List Patient) :
    (stdSort severityGreater q).Sorted (fun a b => a.severity ≥ b.severity) := by
  have h := orderBy_sorted (fun a b : Patient => !(severityGreater b a))
    (fun a b => by simp only [severityGreater, Bool.not_eq_true', decide_eq_false_iff_not]; omega)
    (fun a b c => by
      simp only [severityGreater, Bool.not_eq_true', decide_eq_false_iff_not]; omega) q
  exact h.imp (fun {a b} hab => by
    simp only [severityGreater, Bool.not_eq_true', decide_eq_false_iff_not] at hab
    omega)

theorem severityDesc_sorted (rows : List PatientsRow) :
    (orderBy severityDesc rows).Sorted (fun a b => a.severity ≥ b.severity) := by
  have h := orderBy_sorted severityDesc
    (fun a b => by simp only [severityDesc, decide_eq_true_eq]; omega)
    (fun a b c => by simp only [severityDesc, decide_eq_true_eq]; omega) rows
  exact h.imp (fun {a b} hab => by
    simp only [severityDesc, decide_eq_true_eq] at hab
    exact hab)

theorem loaded_sorted (rows : List PatientsRow)
    (hfit : ∀ r ∈ rows, fitsInt r.severity = true) :
    ((orderBy severityDesc rows).map PatientsRow.toPatient).Sorted
      (fun a b => a.severity ≥ b.severity) := by
  unfold List.Sorted
  rw [List.pairwise_map]
  refine List.Pairwise.imp_of_mem ?_ (severityDesc_sorted rows)
  intro a b ha hb hab
  have hfa := hfit a ((orderBy_perm severityDesc rows).mem_iff.mp ha)
  have hfb := hfit b ((orderBy_perm severityDesc rows).mem_iff.mp hb)
  simp only [PatientsRow.toPatient, toInt32_of_fitsInt _ hfa, toInt32_of_fitsInt _ hfb]
  exact hab

theorem startup_sorted (file : PatientsTable)
    (hfit : ∀ r ∈ file.rows, fitsInt r.severity = true) :
    (startup file).patientQueue.Sorted (fun a b => a.severity ≥ b.severity) := by
  simp only [startup, loadPatientsFromDB, List.nil_append]
  exact loaded_sorted file.rows hfit

theorem insertPatientToDB_queue (g : Gui) (p : Patient) :
    (insertPatientToDB g p).patientQueue = g.patientQueue := by
  unfold insertPatientToDB
  split <;> rfl

theorem step_sorted (g : Gui) (a : Action)
    (h : g.patientQueue.Sorted (fun a b => a.severity ≥ b.severity)) :
    (g.step a).patientQueue.Sorted (fun a b => a.severity ≥ b.severity) := by
  cases a with
  | addPatient n ag sv c =>
    simp only [Gui.step, addPatientClicked]
    split
    · simp only [sortQueue]
      exact stdSort_severity_sorted _
    · exact h
  | clearQueue => exact List.sorted_nil
  | callNext =>
    simp only [Gui.step, callNextClicked]
    split
    · exact h
    · exact h.tail

theorem run_sorted (acts : List Action) (g : Gui)
    (h : g.patientQueue.Sorted (fun a b => a.severity ≥ b.severity)) :
    (g.run acts).patientQueue.Sorted (fun a b => a.severity ≥ b.severity) := by
  induction acts generalizing g with
  | nil => exact h
  | cons a acts ih => exact ih (g.step a) (step_sorted g a h)

theorem callNextClicked_queue (g : Gui) :
    (callNextClicked g).patientQueue = g.patientQueue.tail := by
  unfold callNextClicked
  split
  · rename_i hempty
    rw [List.isEmpty_iff.mp hempty]
    rfl
  · rfl

theorem callNextClicked_db (g : Gui) : (callNextClicked g).db = g.db := by
  unfold callNextClicked
  split <;> rfl

theorem mem_startup_queue (file : PatientsTable) (p : Patient) :
    p ∈ (startup file).patientQueue ↔ ∃ r ∈ file.rows, r.toPatient = p := by
  simp only [startup, loadPatientsFromDB, List.nil_append, List.mem_map,
    (orderBy_perm severityDesc _).mem_iff]

theorem startup_backed (file : PatientsTable) : (startup file).Backed := by
  refine Or.inr (fun p hp => ?_)
  have hdb : (startup file).db = file := rfl
  rw [hdb]
  exact (mem_startup_queue file p).mp hp

theorem step_backed (g : Gui) (a : Action) (h : g.Backed) : (g.step a).Backed := by
  cases a with
  | clearQueue => exact Or.inr (fun p hp => by simp [Gui.step, clearQueueClicked] at hp)
  | callNext =>
    rcases h with h | h
    · left
      simp only [Gui.step]
      rw [callNextClicked_db]
      exact h
    · right
      intro p hp
      simp only [Gui.step] at hp ⊢
      rw [callNextClicked_queue] at hp
      rw [callNextClicked_db]
      exact h p (List.mem_of_mem_tail hp)
  | addPatient n ag sv c =>
    simp only [Gui.step, addPatientClicked]
    split
    · cases hnew : newRowid (g.db.rows.map PatientsRow.id) g.db.seq with
      | none =>
        left
        simp [insertPatientToDB, sortQueue, hnew]
      | some rowid =>
        rcases h with h | h
        · rw [hnew] at h
          exact absurd h (by simp)
        · right
          intro p hp
          simp only [insertPatientToDB, sortQueue, hnew, stdSort,
            (orderBy_perm _ _).mem_iff, List.mem_append, List.mem_singleton] at hp ⊢
          rcases hp with hp | rfl
          · obtain ⟨r, hr, hrp⟩ := h p hp
            exact ⟨r, Or.inl hr, hrp⟩
          · exact ⟨_, Or.inr rfl, by simp [PatientsRow.toPatient, c_str_idem, toInt32_idem]⟩
    · exact h

theorem run_backed (acts : List Action) (g : Gui) (h : g.Backed) : (g.run acts).Backed := by
  induction acts generalizing g with
  | nil => exact h
  | cons a acts ih => exact ih (g.step a) (step_backed g a h)


/-! ## Claims -/

/-- C1 as stated fails on `wideStore`: `db_load_waiting` returns the severities 1, 3, 3
and, within severity 3, the identifiers 2147483647 then -2147483648, so the result is
ordered neither by severity descending nor by identifier ascending; and the first and the
last returned record are no records of the store (the store has no identifier
-2147483648, and its record 7 has another name, age and severity). -/
theorem C1_counterexample :
    (db_load_waiting wideStore).map (fun p => (p.id, p.severity, p.age, p.name)) =
      [(7, 1, 41, "Bo"), (2147483647, 3, 30, "Anna"), (-2147483648, 3, 52, "Carl")] ∧
    wideStore.records.map (fun r => (r.id, r.severity, r.age, r.name, r.status)) =
      [(2147483647, 3, 30, "Anna", "waiting"), (2147483648, 3, 52, "Carl", "waiting"),
        (7, 4294967297, 4294967337, "Bo\x00b", "waiting")] ∧
    ¬ (db_load_waiting wideStore).Sorted
        (fun p q => q.severity < p.severity ∨ (p.severity = q.severity ∧ p.id ≤ q.id)) := by
  decide

/-- C1, amended: for every store state whose waiting records fit a `DBPatient` (`id`,
`age` and `severity` within `int`, texts without NUL), `db_load_waiting` returns exactly
the records whose status is `waiting`, each once and field for field, and no other; the
returned vector is ordered by severity descending and, among records of equal severity, by
identifier ascending.  When the store was built from an empty table by `db_add_patient`
and `db_mark_served` calls (the table lists the records in the order of their
insertion), of two waiting records of equal severity the one inserted earlier has the
smaller identifier and comes first in the result. -/
theorem C1_db_load_waiting (s : Store)
    (hfit : ∀ r ∈ s.records, r.status = "waiting" → r.fits = true) :
    (db_load_waiting s).Sorted
      (fun p q => q.severity < p.severity ∨ (p.severity = q.severity ∧ p.id ≤ q.id)) ∧
    (∀ p ∈ db_load_waiting s, p.status = "waiting") ∧
    (∃ l : List Row,
      l.Perm (s.records.filter (fun r => r.status = "waiting")) ∧
      List.Forall₂
        (fun p r =>
          p.id = r.id ∧ p.name = r.name ∧ p.age = r.age ∧ p.severity = r.severity ∧
          p.checkup = r.checkup.getD "" ∧ p.visit_time = r.visit_time ∧
          p.status = r.status)
        (db_load_waiting s) l) ∧
    (∀ (seq0 : Int) (ops : List Op), s = (Store.table { rows := [], seq := seq0 }).run ops →
      ∀ a b : Row, List.Sublist [a, b] s.records →
        a.status = "waiting" → b.status = "waiting" → a.severity = b.severity →
        a.id < b.id ∧
        ∃ p q, List.Sublist [p, q] (db_load_waiting s) ∧
          p.id = a.id ∧ p.name = a.name ∧ q.id = b.id ∧ q.name = b.name) := by
  cases s with
  | closed =>
    refine ⟨List.sorted_nil, by simp [db_load_waiting], ⟨[], by simp [Store.records], ?_⟩, ?_⟩
    · exact List.Forall₂.nil
    · intro seq0 ops _ a b hab
      simp [Store.records] at hab
  | noTable =>
    refine ⟨List.sorted_nil, by simp [db_load_waiting], ⟨[], by simp [Store.records], ?_⟩, ?_⟩
    · exact List.Forall₂.nil
    · intro seq0 ops _ a b hab
      simp [Store.records] at hab
  | table t =>
    simp only [Store.records] at hfit
    have hmem : ∀ r ∈ orderBy waitingOrder (t.rows.filter isWaiting),
        r ∈ t.rows ∧ r.status = "waiting" := by
      intro r hr
      have := List.mem_filter.mp ((orderBy_perm waitingOrder _).mem_iff.mp hr)
      exact ⟨this.1, by simpa [isWaiting] using this.2⟩
    have hfitl : ∀ r ∈ t.rows.filter isWaiting, r.fits = true := by
      intro r hr
      have := List.mem_filter.mp hr
      exact hfit r this.1 (by simpa [isWaiting] using this.2)
    refine ⟨waiting_fetched_sorted _ hfitl, ?_, ?_, ?_⟩
    · intro p hp
      obtain ⟨r, hr, hw, rfl⟩ := (mem_db_load_waiting t p).mp hp
      rw [(fetchRow_of_fits r (hfit r hr hw)).2.2.2.2.2.2]
      exact hw
    · refine ⟨orderBy waitingOrder (t.rows.filter isWaiting), orderBy_perm _ _, ?_⟩
      apply forall₂_map_fetchRow
      intro r hr
      exact fetchRow_of_fits r (hfit r (hmem r hr).1 (hmem r hr).2)
    · intro seq0 ops hrun a b hab ha hb hsev
      simp only [Store.records] at hab
      have hinc := run_ids_increasing ops (Store.table { rows := [], seq := seq0 })
        (by simp [Store.records])
      rw [← hrun] at hinc
      simp only [Store.records] at hinc
      have hlt : a.id < b.id := by
        have hpair : List.Sublist [a.id, b.id] (t.rows.map Row.id) := hab.map Row.id
        have := hinc.sublist hpair
        simpa using this
      refine ⟨hlt, fetchRow a, fetchRow b, ?_, ?_⟩
      · exact pair_sublist_db_load_waiting t a b hab ha hb
          ((waitingOrder_iff a b).mpr (Or.inr ⟨hsev, le_of_lt hlt⟩))
      · have hamem : a ∈ t.rows := hab.subset (by simp)
        have hbmem : b ∈ t.rows := hab.subset (by simp)
        have hfa := fetchRow_of_fits a (hfit a hamem ha)
        have hfb := fetchRow_of_fits b (hfit b hbmem hb)
        exact ⟨hfa.1, hfa.2.1, hfb.1, hfb.2.1⟩

/-- C1 at a concrete input: in the store reached by `sampleOps`, `sampleAnna` and
`sampleCarl`, inserted in this order with the same severity, fit a `DBPatient`. -/
theorem C1_witness :
    (∀ r ∈ sampleReached.records, r.status = "waiting" → r.fits = true) ∧
    ((db_load_waiting sampleReached).Sorted
        (fun p q => q.severity < p.severity ∨ (p.severity = q.severity ∧ p.id ≤ q.id)) ∧
      (∀ p ∈ db_load_waiting sampleReached, p.status = "waiting") ∧
      (∃ l : List Row,
        l.Perm (sampleReached.records.filter (fun r => r.status = "waiting")) ∧
        List.Forall₂
          (fun p r =>
            p.id = r.id ∧ p.name = r.name ∧ p.age = r.age ∧ p.severity = r.severity ∧
            p.checkup = r.checkup.getD "" ∧ p.visit_time = r.visit_time ∧
            p.status = r.status)
          (db_load_waiting sampleReached) l) ∧
      (∀ (seq0 : Int) (ops : List Op),
        sampleReached = (Store.table { rows := [], seq := seq0 }).run ops →
        ∀ a b : Row, List.Sublist [a, b] sampleReached.records →
          a.status = "waiting" → b.status = "waiting" → a.severity = b.severity →
          a.id < b.id ∧
          ∃ p q, List.Sublist [p, q] (db_load_waiting sampleReached) ∧
            p.id = a.id ∧ p.name = a.name ∧ q.id = b.id ∧ q.name = b.name)) :=
  ⟨by decide, C1_db_load_waiting sampleReached (by decide)⟩

/-- C2 as stated fails: on a store whose records have the identifiers 1, 2 and 3,
`db_mark_served 9` returns true (and leaves the store as it was). -/
theorem C2_counterexample :
    (sampleStore.records.map Row.id = [1, 2, 3]) ∧
    db_mark_served sampleStore 9 = (true, sampleStore) := by
  decide

/-- C2, amended: for every store state and every identifier `id` that no record of the
store has (`toInt32 id` is the value the `int` parameter holds, `id` itself for every
`int`), `db_mark_served id` leaves the store unchanged, and it returns true exactly
when the store is open with its table (false only for a closed handle or a missing
table). -/
theorem C2_db_mark_served_missing (s : Store) (id : Int)
    (h : ∀ r ∈ s.records, r.id ≠ toInt32 id) :
    (db_mark_served s id).2 = s ∧
    ((db_mark_served s id).1 = true ↔ ∃ t, s = .table t) := by
  cases s with
  | closed => simp [db_mark_served]
  | noTable => simp [db_mark_served]
  | table t =>
    simp only [Store.records] at h
    refine ⟨?_, by simp [db_mark_served]⟩
    have hmap : t.rows.map (markRow (toInt32 id)) = t.rows := by
      conv_rhs => rw [← List.map_id t.rows]
      exact List.map_congr_left (fun r hr => by simp [markRow_of_ne (toInt32 id) r (h r hr)])
    simp [db_mark_served, hmap]

/-- C2 at a concrete input: no record of `sampleStore` has the identifier 9. -/
theorem C2_witness :
    (∀ r ∈ sampleStore.records, r.id ≠ toInt32 9) ∧
    ((db_mark_served sampleStore 9).2 = sampleStore ∧
      ((db_mark_served sampleStore 9).1 = true ↔ ∃ t, sampleStore = .table t)) :=
  ⟨by decide, C2_db_mark_served_missing sampleStore 9 (by decide)⟩

/-- C3 as stated fails on `beyondIntStore`, whose one record has the rowid 2147483648
and is waiting: `db_load_waiting` reports it with the identifier -2147483648;
`db_mark_served` called with that identifier, or with the rowid (which an `int`
parameter holds as -2147483648), returns true and leaves the store as it was, and the
record is still in the result of `db_load_waiting`. -/
theorem C3_counterexample :
    beyondIntStore.records.map (fun r => (r.id, r.status)) = [(2147483648, "waiting")] ∧
    (db_load_waiting beyondIntStore).map (fun p => (p.id, p.name)) =
      [(-2147483648, "Bo")] ∧
    db_mark_served beyondIntStore (-2147483648) = (true, beyondIntStore) ∧
    db_mark_served beyondIntStore 2147483648 = (true, beyondIntStore) ∧
    (db_load_waiting (db_mark_served beyondIntStore (-2147483648)).2).map
        (fun p => (p.id, p.name)) = [(-2147483648, "Bo")] := by
  decide

/-- C3, amended: for every store state whose record identifiers fit an `int` and every
identifier `id` of an existing record `r`, `db_mark_served id` succeeds; afterwards the
store holds `r` with status `served`, no record returned by `db_load_waiting` has that
identifier, and `db_load_history` called with the default limit 0 returns a record with
that identifier and status `served` that carries the other columns of `r` as the reader
reads them. -/
theorem C3_db_mark_served_moves_record (s : Store) (id : Int) (r : Row)
    (hfit : ∀ x ∈ s.records, fitsInt x.id = true)
    (hr : r ∈ s.records) (hid : r.id = id) :
    (db_mark_served s id).1 = true ∧
    { r with status := "served" } ∈ (db_mark_served s id).2.records ∧
    (∀ p ∈ db_load_waiting (db_mark_served s id).2, p.id ≠ id) ∧
    (∃ p ∈ db_load_history (db_mark_served s id).2 0,
      p.id = id ∧ p.status = "served" ∧ p.name = c_str r.name ∧ p.age = toInt32 r.age ∧
      p.severity = toInt32 r.severity ∧ p.checkup = c_str (r.checkup.getD "") ∧
      p.visit_time = c_str r.visit_time) := by
  cases s with
  | closed => simp [Store.records] at hr
  | noTable => simp [Store.records] at hr
  | table t =>
    simp only [Store.records] at hr hfit
    have hbound : toInt32 id = id := by
      rw [← hid]
      exact toInt32_of_fitsInt _ (hfit r hr)
    have hmark : markRow id r = { r with status := "served" } := markRow_of_eq id r hid
    refine ⟨rfl, ?_, ?_, ?_⟩
    · simp only [db_mark_served, Store.records, List.mem_map, hbound]
      exact ⟨r, hr, hmark⟩
    · intro p hp hpid
      simp only [db_mark_served, hbound] at hp
      obtain ⟨z, hz, hzw, rfl⟩ := (mem_db_load_waiting _ p).mp hp
      obtain ⟨y, hy, rfl⟩ := List.mem_map.mp hz
      have hyid : (markRow id y).id = id := by
        have h1 : (fetchRow (markRow id y)).id = toInt32 (markRow id y).id := rfl
        rw [h1, markRow_id, toInt32_of_fitsInt _ (hfit y hy)] at hpid
        rw [markRow_id]
        exact hpid
      rw [markRow_status_of_id id y hyid] at hzw
      exact absurd hzw (by decide)
    · refine ⟨fetchRow (markRow id r), ?_, ?_⟩
      · simp only [db_mark_served, hbound]
        rw [mem_db_load_history_zero]
        exact ⟨markRow id r, List.mem_map.mpr ⟨r, hr, rfl⟩, rfl⟩
      · rw [hmark]
        have hserved : c_str "served" = "served" := by decide
        refine ⟨?_, hserved, rfl, rfl, rfl, rfl, rfl⟩
        show toInt32 r.id = id
        rw [hid]
        exact hbound

/-- C3 at a concrete input: marking the waiting record `sampleAnna` of `sampleStore`. -/
theorem C3_witness :
    (∀ x ∈ sampleStore.records, fitsInt x.id = true) ∧
    sampleAnna ∈ sampleStore.records ∧ sampleAnna.id = 1 ∧
    ((db_mark_served sampleStore 1).1 = true ∧
      { sampleAnna with status := "served" } ∈ (db_mark_served sampleStore 1).2.records ∧
      (∀ p ∈ db_load_waiting (db_mark_served sampleStore 1).2, p.id ≠ 1) ∧
      (∃ p ∈ db_load_history (db_mark_served sampleStore 1).2 0,
        p.id = 1 ∧ p.status = "served" ∧ p.name = c_str sampleAnna.name ∧
        p.age = toInt32 sampleAnna.age ∧ p.severity = toInt32 sampleAnna.severity ∧
        p.checkup = c_str (sampleAnna.checkup.getD "") ∧
        p.visit_time = c_str sampleAnna.visit_time)) :=
  ⟨by decide, by decide, by decide,
    C3_db_mark_served_moves_record sampleStore 1 sampleAnna (by decide) (by decide)
      (by decide)⟩

/-- C4 fails on the store `sampleStore` (names Anna, Juan, Bob) for the query `_`: no
name contains the character `_`, with or without case folding, yet `db_search_by_name`
returns all three records, because `_` reaches `LIKE` as a wildcard.  The search field of
the window, which looks for the query with `find`, shows none of the three names for `_`.
For the query `an` the function does return exactly Juan and Anna, the more recent
first. -/
theorem C4_db_search_by_name_wildcard :
    sampleStore.records.filter
        (fun r => decide ((sqlLower "_").data <:+: (sqlLower r.name).data)) = [] ∧
    (db_search_by_name sampleStore "_").map DBPatient.name = ["Juan", "Bob", "Anna"] ∧
    (sampleStore.records.map
        (fun r => queueRowShown "_"
          { name := r.name, age := r.age, severity := r.severity, checkup := "" }))
      = [false, false, false] ∧
    (db_search_by_name sampleStore "an").map DBPatient.name = ["Juan", "Anna"] := by
  decide

/-- C6 as stated fails: on an initialized store whose one record has the identifier
2147483647, adding a patient whose name holds a NUL succeeds and appends one record, but
that record's identifier is 2147483648 while the call returns -2147483648, which is below
the identifier already in the store; and the record's name is the text before the NUL,
not the name that was passed. -/
theorem C6_counterexample :
    db_add_patient
        (.table
          { rows := [ { id := 2147483647, name := "Anna", age := 30, severity := 3,
                        checkup := some "flu", visit_time := "2024-01-01 10:00:00",
                        status := "waiting" } ]
            seq := 2147483647 })
        "Bo\x00b" 41 2 "x-ray" "2024-01-01 10:05:00"
      = (-2147483648,
          .table
            { rows := [ { id := 2147483647, name := "Anna", age := 30, severity := 3,
                          checkup := some "flu", visit_time := "2024-01-01 10:00:00",
                          status := "waiting" },
                        { id := 2147483648, name := "Bo", age := 41, severity := 2,
                          checkup := some "x-ray", visit_time := "2024-01-01 10:05:00",
                          status := "waiting" } ]
              seq := 2147483648 }) ∧
    (-2147483648 : Int) ≠ 2147483648 ∧
    ¬ ((2147483647 : Int) < -2147483648) ∧
    "Bo" ≠ "Bo\x00b" := by
  decide

/-- C6, amended: for every store and every name, age, severity and checkup, a call of
`db_add_patient` either succeeds or fails.  It succeeds exactly on an initialized store
for which SQLite can still pick a rowid; it then appends exactly one record, which carries
the name and the checkup up to their first NUL, the age, the severity, the clock text and
status `waiting`, leaves every existing record unchanged, gives the new record an
identifier greater than that of every record already in the store, and returns that
identifier narrowed to `int`, which is the identifier itself whenever it fits an `int`.
Otherwise (closed handle, missing table, no rowid left) it returns -1 and leaves the store
unchanged. -/
theorem C6_db_add_patient (s : Store) (name : String) (age severity : Int)
    (checkup : String) (now : String) :
    (∃ t rowid,
        s = .table t ∧ newRowid (t.rows.map Row.id) t.seq = some rowid ∧
        db_add_patient s name age severity checkup now =
          (toInt32 rowid,
            .table
              { rows := t.rows ++
                  [ { id := rowid, name := c_str name, age := age, severity := severity,
                      checkup := some (c_str checkup), visit_time := now,
                      status := "waiting" } ]
                seq := rowid }) ∧
        (∀ r ∈ t.rows, r.id < rowid) ∧
        (-2147483648 ≤ rowid → rowid ≤ 2147483647 → toInt32 rowid = rowid)) ∨
    ((s = .closed ∨ s = .noTable ∨ ∃ t, s = .table t ∧ newRowid (t.rows.map Row.id) t.seq = none) ∧
      db_add_patient s name age severity checkup now = (-1, s)) := by
  cases s with
  | closed => exact Or.inr ⟨Or.inl rfl, rfl⟩
  | noTable => exact Or.inr ⟨Or.inr (Or.inl rfl), rfl⟩
  | table t =>
    cases hnew : newRowid (t.rows.map Row.id) t.seq with
    | none =>
      refine Or.inr ⟨Or.inr (Or.inr ⟨t, rfl, hnew⟩), ?_⟩
      simp [db_add_patient, hnew]
    | some rowid =>
      refine Or.inl ⟨t, rowid, rfl, hnew, ?_, ?_, toInt32_of_fits rowid⟩
      · simp [db_add_patient, hnew]
      · intro r hr
        exact lt_of_newRowid hnew r.id (List.mem_map.mpr ⟨r, hr, rfl⟩)

/-- C7: in every store state reached from an empty table by any sequence of
`db_add_patient` and `db_mark_served` calls, the record identifiers are pairwise distinct;
and whatever call comes next, every record stays in the store with the same identifier,
either unchanged or with its status set to `served`, so a served record stays served. -/
theorem C7_identifiers_distinct_records_kept (seq0 : Int) (ops : List Op) (op : Op) :
    (((Store.table { rows := [], seq := seq0 }).run ops).records.map Row.id).Nodup ∧
    ∀ r ∈ ((Store.table { rows := [], seq := seq0 }).run ops).records,
      ∃ r2 ∈ (((Store.table { rows := [], seq := seq0 }).run ops).step op).records,
        r2.id = r.id ∧
        (r.status = "served" → r2.status = "served") ∧
        (r2 = r ∨ r2 = { r with status := "served" }) := by
  refine ⟨run_nodup ops _ (by simp [Store.records]), ?_⟩
  intro r hr
  obtain ⟨r2, hr2, h⟩ := step_keeps _ op r hr
  refine ⟨r2, hr2, ?_, ?_, h⟩
  · rcases h with rfl | rfl <;> rfl
  · intro hs
    rcases h with rfl | rfl
    · exact hs
    · rfl

/-- C8: in the window, pressing "Add Patient" with an empty name leaves the in-memory
queue and the table unchanged, whatever the other fields hold; `db_add_patient` itself,
called with the empty name on any initialized store for which a rowid can be picked,
succeeds and appends a record whose name is empty. -/
theorem C8_empty_name_rejected_by_caller_only :
    (∀ (g : Gui) (age severity : Int) (checkupBuffer : String),
      (g.step (.addPatient "" age severity checkupBuffer)).patientQueue = g.patientQueue ∧
      (g.step (.addPatient "" age severity checkupBuffer)).db = g.db) ∧
    (∀ (t : Table) (rowid : Int) (age severity : Int) (checkup now : String),
      newRowid (t.rows.map Row.id) t.seq = some rowid →
      db_add_patient (.table t) "" age severity checkup now =
        (toInt32 rowid,
          .table
            { rows := t.rows ++
                [ { id := rowid, name := "", age := age, severity := severity,
                    checkup := some (c_str checkup), visit_time := now,
                    status := "waiting" } ]
              seq := rowid })) := by
  constructor
  · intro g age severity checkupBuffer
    have hlen : ¬ (c_str "").length > 0 := by decide
    simp only [Gui.step, addPatientClicked, hlen, if_false, and_self]
  · intro t rowid age severity checkup now hnew
    have hname : c_str "" = "" := by decide
    simp [db_add_patient, hnew, hname]

/-- C8 at a concrete input: on the store `db_init` makes from a new file, the insert with
the empty name returns 1 and the table holds one record whose name is empty. -/
theorem C8_witness :
    newRowid (([] : List Row).map Row.id) 0 = some 1 ∧
    db_add_patient (db_init .fresh).2 "" 30 3 "flu" "2024-01-01 10:00:00" =
      (toInt32 1,
        .table
          { rows := ([] : List Row) ++
              [ { id := 1, name := "", age := 30, severity := 3,
                  checkup := some (c_str "flu"), visit_time := "2024-01-01 10:00:00",
                  status := "waiting" } ]
            seq := 1 }) :=
  ⟨by decide,
    C8_empty_name_rejected_by_caller_only.2 { rows := [], seq := 0 } 1 30 3 "flu"
      "2024-01-01 10:00:00" (by decide)⟩

/-- C9 as stated fails on the startup load of `widePatients`, whose rows hold the
severities 4294967297 and 5: the `SELECT` orders them by the stored value, the loop reads
them as 1 and 5, the queue is not ordered by severity descending, and "Call Next Patient"
removes the patient of severity 1 while the one of severity 5 waits. -/
theorem C9_counterexample :
    (startup widePatients).patientQueue.map (fun p => (p.name, p.severity)) =
      [("Anna", 1), ("Juan", 5)] ∧
    ¬ (startup widePatients).patientQueue.Sorted (fun a b => a.severity ≥ b.severity) ∧
    (callNextClicked (startup widePatients)).patientQueue.map (fun p => (p.name, p.severity)) =
      [("Juan", 5)] := by
  decide

/-- C9, amended: when every severity in the table read at startup fits an `int`, the
startup load puts one patient per row into the queue, with the row's severity, and in
every window state reached from it by any sequence of "Add Patient", "Clear Queue" and
"Call Next Patient" actions the in-memory queue is ordered by severity descending
(non-increasing); "Call Next Patient" removes the head element, and the head's severity
is maximal among the patients in the queue. -/
theorem C9_queue_sorted_by_severity (file : PatientsTable) (acts : List Action)
    (hfit : ∀ r ∈ file.rows, fitsInt r.severity = true) :
    (∃ l : List PatientsRow,
      l.Perm file.rows ∧
      List.Forall₂
        (fun p r =>
          p.name = c_str r.name ∧ p.age = toInt32 r.age ∧ p.severity = r.severity ∧
          p.checkup = c_str r.checkup)
        (startup file).patientQueue l) ∧
    ((startup file).run acts).patientQueue.Sorted (fun a b => a.severity ≥ b.severity) ∧
    (callNextClicked ((startup file).run acts)).patientQueue =
      ((startup file).run acts).patientQueue.tail ∧
    ∀ p ∈ ((startup file).run acts).patientQueue.head?,
      ∀ q ∈ ((startup file).run acts).patientQueue, q.severity ≤ p.severity := by
  have hsorted := run_sorted acts (startup file) (startup_sorted file hfit)
  refine ⟨⟨orderBy severityDesc file.rows, orderBy_perm _ _, ?_⟩, hsorted,
    callNextClicked_queue _, ?_⟩
  · simp only [startup, loadPatientsFromDB, List.nil_append]
    rw [List.forall₂_map_left_iff, List.forall₂_same]
    intro r hr
    have hf := hfit r ((orderBy_perm severityDesc file.rows).mem_iff.mp hr)
    exact ⟨rfl, rfl, toInt32_of_fitsInt _ hf, rfl⟩
  · intro p hp q hq
    cases hqueue : ((startup file).run acts).patientQueue with
    | nil => simp [hqueue] at hq
    | cons x rest =>
      rw [hqueue] at hp hq hsorted
      simp only [List.head?_cons, Option.mem_def, Option.some.injEq] at hp
      subst hp
      rcases List.mem_cons.mp hq with rfl | hq
      · exact le_refl _
      · exact List.rel_of_sorted_cons hsorted q hq

/-- C9 at a concrete input: the sample table, one added patient, one call. -/
theorem C9_witness :
    (∀ r ∈ samplePatients.rows, fitsInt r.severity = true) ∧
    ((∃ l : List PatientsRow,
        l.Perm samplePatients.rows ∧
        List.Forall₂
          (fun p r =>
            p.name = c_str r.name ∧ p.age = toInt32 r.age ∧ p.severity = r.severity ∧
            p.checkup = c_str r.checkup)
          (startup samplePatients).patientQueue l) ∧
      ((startup samplePatients).run [.addPatient "Zed" 20 4 "cough", .callNext]).patientQueue.Sorted
        (fun a b => a.severity ≥ b.severity) ∧
      (callNextClicked
          ((startup samplePatients).run [.addPatient "Zed" 20 4 "cough", .callNext])).patientQueue =
        ((startup samplePatients).run [.addPatient "Zed" 20 4 "cough", .callNext]).patientQueue.tail ∧
      ∀ p ∈ ((startup samplePatients).run
              [.addPatient "Zed" 20 4 "cough", .callNext]).patientQueue.head?,
        ∀ q ∈ ((startup samplePatients).run
                [.addPatient "Zed" 20 4 "cough", .callNext]).patientQueue,
          q.severity ≤ p.severity) :=
  ⟨by decide,
    C9_queue_sorted_by_severity samplePatients [.addPatient "Zed" 20 4 "cough", .callNext]
      (by decide)⟩

/-- C10 as stated fails on the startup load of `fullPatients`, a table that cannot take
another row: "Add Patient" puts Zed at the head of the queue while the insert fails
unnoticed and the table stays as it was; after "Call Next Patient" (or "Clear Queue") the
table is still unchanged, and the next startup loads Anna only: the patient already called
is not loaded again. -/
theorem C10_counterexample :
    ((startup fullPatients).run [.addPatient "Zed" 20 5 "cough"]).patientQueue =
      [ { name := "Zed", age := 20, severity := 5, checkup := "cough" },
        { name := "Anna", age := 30, severity := 3, checkup := "flu" } ] ∧
    ((startup fullPatients).run [.addPatient "Zed" 20 5 "cough"]).db = fullPatients ∧
    (callNextClicked ((startup fullPatients).run [.addPatient "Zed" 20 5 "cough"])).patientQueue =
      [ { name := "Anna", age := 30, severity := 3, checkup := "flu" } ] ∧
    (startup
        (callNextClicked
          ((startup fullPatients).run [.addPatient "Zed" 20 5 "cough"])).db).patientQueue =
      [ { name := "Anna", age := 30, severity := 3, checkup := "flu" } ] ∧
    (startup
        (clearQueueClicked
          ((startup fullPatients).run [.addPatient "Zed" 20 5 "cough"])).db).patientQueue =
      [ { name := "Anna", age := 30, severity := 3, checkup := "flu" } ] := by
  decide

/-- C10, amended: for every window state, "Call Next Patient" and "Clear Queue" leave the
table unchanged, so what a later startup loads into the queue is the same as what a
startup would have loaded before the action, and every row the table held before the
action is loaded again.  In a state reached from the startup load whose table can still
take a row (so that no insert has failed unnoticed), every patient in the queue, the one
called next and the ones cleared included, is loaded into the queue again by the next
startup. -/
theorem C10_call_next_and_clear_keep_table (g : Gui) (file : PatientsTable)
    (acts : List Action) :
    (callNextClicked g).db = g.db ∧
    (clearQueueClicked g).db = g.db ∧
    (startup (callNextClicked g).db).patientQueue = (startup g.db).patientQueue ∧
    (startup (clearQueueClicked g).db).patientQueue = (startup g.db).patientQueue ∧
    (∀ r ∈ g.db.rows,
      r.toPatient ∈ (startup (callNextClicked g).db).patientQueue ∧
      r.toPatient ∈ (startup (clearQueueClicked g).db).patientQueue) ∧
    (newRowid (((startup file).run acts).db.rows.map PatientsRow.id)
        ((startup file).run acts).db.seq ≠ none →
      ∀ p ∈ ((startup file).run acts).patientQueue,
        p ∈ (startup (callNextClicked ((startup file).run acts)).db).patientQueue ∧
        p ∈ (startup (clearQueueClicked ((startup file).run acts)).db).patientQueue) := by
  have h1 := callNextClicked_db g
  have h2 : (clearQueueClicked g).db = g.db := rfl
  refine ⟨h1, h2, by rw [h1], by rw [h2], ?_, ?_⟩
  · intro r hr
    rw [h1, h2]
    exact ⟨(mem_startup_queue _ _).mpr ⟨r, hr, rfl⟩, (mem_startup_queue _ _).mpr ⟨r, hr, rfl⟩⟩
  · intro hroom p hp
    have h3 := callNextClicked_db ((startup file).run acts)
    have h4 : (clearQueueClicked ((startup file).run acts)).db = ((startup file).run acts).db :=
      rfl
    rw [h3, h4]
    rcases run_backed acts (startup file) (startup_backed file) with hfull | hback
    · exact absurd hfull hroom
    · exact ⟨(mem_startup_queue _ _).mpr (hback p hp), (mem_startup_queue _ _).mpr (hback p hp)⟩

/-- C10 at a concrete run: after adding a patient to the sample window, the table can
still take a row and every queued patient is loaded again after "Call Next Patient" or
"Clear Queue". -/
theorem C10_witness :
    (newRowid ((sampleGui.run [.addPatient "Zed" 20 4 "cough"]).db.rows.map PatientsRow.id)
        (sampleGui.run [.addPatient "Zed" 20 4 "cough"]).db.seq ≠ none) ∧
    (∀ p ∈ (sampleGui.run [.addPatient "Zed" 20 4 "cough"]).patientQueue,
      p ∈ (startup
            (callNextClicked (sampleGui.run [.addPatient "Zed" 20 4 "cough"])).db).patientQueue ∧
      p ∈ (startup
            (clearQueueClicked (sampleGui.run [.addPatient "Zed" 20 4 "cough"])).db).patientQueue) :=
  ⟨by decide,
    (C10_call_next_and_clear_keep_table sampleGui samplePatients
      [.addPatient "Zed" 20 4 "cough"]).2.2.2.2.2 (by decide)⟩

end HospitalQueue
